import Mathlib

/-!
# jhunt/go-db: the connection manager and its statement cache

A shallow embedding of `db.go`.  The manager object `*DB` is a record that every
method receives and hands back (explicit state passing).  The package talks to
`database/sql`; what that library answers is not decided by this repository, so
each method takes a `Backend` giving the answer of every library call it can make,
and a `World` records the calls that were made (handles opened, `Prepare` and
`Close` calls).  The mutex `exclusive` only serialises callers and has no effect
on a single call, so it is not part of the record.
-/

namespace GoDB

/-- Go `error` values are represented by their message. -/
abbrev Error := String

/-- An argument passed through `args ...interface{}` or a column value. -/
inductive Value where
  | null
  | int (i : Int)
  | text (s : String)
deriving DecidableEq, Repr

/-- One result row. -/
abbrev Row := List Value

/-- A `*sql.Stmt`: `id` is the number of the `Prepare` call that created it,
`conn` the handle it was prepared on, `text` the query text. -/
structure Stmt where
  id : Nat
  conn : Nat
  text : String
deriving DecidableEq, Repr

/-- A `*sql.Rows` cursor: the rows it has not yielded yet, and whether it is closed. -/
structure Rows where
  pending : List Row
  closed : Bool
deriving DecidableEq, Repr

/-- Go map `map[string]*sql.Stmt` as an association list with one pair per key. -/
abbrev Cache := List (String × Stmt)

/-- Map read `m[k]`: the value and `ok`, as an option. -/
def Cache.get (m : Cache) (k : String) : Option Stmt :=
  match m with
  | [] => none
  | (k1, v) :: rest => if k1 = k then some v else Cache.get rest k

/-- Map write `m[k] = v`: replaces the pair of `k` if there is one. -/
def Cache.set (m : Cache) (k : String) (v : Stmt) : Cache :=
  (k, v) :: m.filter (fun p => decide (p.1 ≠ k))

/-- The struct `DB`: `connection` is `none` for the nil pointer, `cache` is `none`
for the nil map. -/
structure DB where
  Driver : String
  DSN : String
  connection : Option Nat
  cache : Option Cache
deriving DecidableEq, Repr

/-- The calls made into `database/sql` so far. -/
structure World where
  opened : Nat
  prepares : List (Nat × String)
  closes : List Nat
deriving DecidableEq, Repr

/-- What `database/sql` answers to each call made during one method call. -/
structure Backend where
  sqlOpen : String → String → Option Error
  close : Nat → Option Error
  prepare : Nat → String → Option Error
  exec : Stmt → List Value → Option Error
  query : Stmt → List Value → Except Error (List Row)

/-- How a Go call ends: it returns a value and an error, or it panics. -/
inductive Ret (α : Type) where
  | ret (val : α) (err : Option Error)
  | panic (msg : String)
deriving DecidableEq, Repr

/-- The composite literal `&db.DB{Driver: driver, DSN: dsn}` of the tests. -/
def newDB (driver dsn : String) : DB :=
  { Driver := driver, DSN := dsn, connection := none, cache := none }

/-- No call into `database/sql` has been made. -/
def World.init : World :=
  { opened := 0, prepares := [], closes := [] }

/-- Method `Copy`: the receiver as it is left, and the new manager. -/
def DB.Copy (db : DB) : DB × DB :=
  (db, { Driver := db.Driver, DSN := db.DSN, connection := none, cache := none })

/-- Method `Connected`. -/
def DB.Connected (db : DB) : Bool :=
  match db.connection with
  | none => false
  | some _ => true

/-- Method `Connect`. -/
def DB.Connect (B : Backend) (db : DB) (w : World) : DB × World × Option Error :=
  match B.sqlOpen db.Driver db.DSN with
  | some err => (db, w, some err)
  | none =>
    let connection := w.opened
    let w1 := { w with opened := w.opened + 1 }
    let db1 := { db with connection := some connection }
    match db1.cache with
    | none => ({ db1 with cache := some [] }, w1, none)
    | some _ => (db1, w1, none)

/-- Method `Disconnect`. -/
def DB.Disconnect (B : Backend) (db : DB) (w : World) : DB × World × Option Error :=
  match db.connection with
  | some c =>
    let w1 := { w with closes := w.closes ++ [c] }
    match B.close c with
    | some err => (db, w1, some err)
    | none => ({ db with connection := none, cache := some [] }, w1, none)
  | none => (db, w, none)

/-- Read of `db.cache[sql]`; reading the nil map finds nothing. -/
def DB.cacheGet (db : DB) (sql : String) : Option Stmt :=
  match db.cache with
  | none => none
  | some m => m.get sql

/-- Number of entries `len(db.cache)`; the nil map has none. -/
def DB.cacheLen (db : DB) : Nat :=
  match db.cache with
  | none => 0
  | some m => m.length

/-- Method `statement`.  The returned option is the pointer `q` (`none` is nil). -/
def DB.statement (B : Backend) (db : DB) (w : World) (sql : String) :
    DB × World × Ret (Option Stmt) :=
  match db.connection with
  | none => (db, w, .ret none (some "Not connected to database"))
  | some c =>
    match db.cacheGet sql with
    | some _ => (db, w, .ret (db.cacheGet sql) none)
    | none =>
      let w1 := { w with prepares := w.prepares ++ [(c, sql)] }
      match B.prepare c sql with
      | some err => (db, w1, .ret none (some err))
      | none =>
        let stmt : Stmt := { id := w.prepares.length, conn := c, text := sql }
        match db.cache with
        | none => (db, w1, .panic "assignment to entry in nil map")
        | some m =>
          let db1 := { db with cache := some (m.set sql stmt) }
          (db1, w1, .ret (db1.cacheGet sql) none)

/-- Method `Exec`. -/
def DB.Exec (B : Backend) (db : DB) (w : World) (sql : String) (args : List Value) :
    DB × World × Ret Unit :=
  match db.statement B w sql with
  | (db1, w1, .panic msg) => (db1, w1, .panic msg)
  | (db1, w1, .ret _ (some err)) => (db1, w1, .ret () (some err))
  | (db1, w1, .ret none none) => (db1, w1, .panic "nil pointer dereference")
  | (db1, w1, .ret (some s) none) =>
    match B.exec s args with
    | some err => (db1, w1, .ret () (some err))
    | none => (db1, w1, .ret () none)

/-- Method `Query`.  The returned option is the pointer `r` (`none` is nil). -/
def DB.Query (B : Backend) (db : DB) (w : World) (sql : String) (args : List Value) :
    DB × World × Ret (Option Rows) :=
  match db.statement B w sql with
  | (db1, w1, .panic msg) => (db1, w1, .panic msg)
  | (db1, w1, .ret _ (some err)) => (db1, w1, .ret none (some err))
  | (db1, w1, .ret none none) => (db1, w1, .panic "nil pointer dereference")
  | (db1, w1, .ret (some s) none) =>
    match B.query s args with
    | .error err => (db1, w1, .ret none (some err))
    | .ok rows => (db1, w1, .ret (some { pending := rows, closed := false }) none)

/-- The loop `for r.Next() { n++ }` of `Count` on a `uint` of `bits` bits:
`r.Next()` is true while a row is pending and hands it out. -/
def Count.loop (bits : Nat) : List Row → Nat → Nat
  | [], n => n
  | _ :: rest, n => Count.loop bits rest ((n + 1) % 2 ^ bits)

/-- Method `Count`, with the width of `uint` (32 or 64) as `bits`.  The third
component is the cursor as it is left, when `Query` returned one. -/
def DB.Count (bits : Nat) (B : Backend) (db : DB) (w : World) (sql : String)
    (args : List Value) : DB × World × Option Rows × Ret Nat :=
  match db.Query B w sql args with
  | (db1, w1, .panic msg) => (db1, w1, none, .panic msg)
  | (db1, w1, .ret _ (some err)) => (db1, w1, none, .ret 0 (some err))
  | (db1, w1, .ret none none) => (db1, w1, none, .panic "nil pointer dereference")
  | (db1, w1, .ret (some r) none) =>
    let n := Count.loop bits r.pending 0
    (db1, w1, some { pending := [], closed := true }, .ret n none)

/-! ## Predicates on the manager -/

/-- The statement cache is non-empty only if a connection is held. -/
def DB.CacheOnlyIfConnected (db : DB) : Prop :=
  db.Connected = false → db.cacheLen = 0

/-- A manager holding a connection has an allocated (non-nil) cache map. -/
def DB.CacheAllocated (db : DB) : Prop :=
  db.Connected = true → db.cache ≠ none

/-- Every statement in the cache was prepared on the held connection. -/
def DB.Coherent (db : DB) : Prop :=
  ∀ k s, db.cacheGet k = some s → db.connection = some s.conn

/-! ## Sequences of calls -/

/-- The manager together with the record of library calls. -/
structure State where
  db : DB
  world : World
deriving DecidableEq, Repr

/-- A call of one of the state-changing methods. -/
inductive Call where
  | Connect
  | Disconnect
  | Exec (sql : String) (args : List Value)
  | Query (sql : String) (args : List Value)
deriving DecidableEq, Repr

/-- The state a call leaves, given what the library answers during it. -/
def step (B : Backend) (s : State) : Call → State
  | .Connect => { db := (s.db.Connect B s.world).1, world := (s.db.Connect B s.world).2.1 }
  | .Disconnect =>
    { db := (s.db.Disconnect B s.world).1, world := (s.db.Disconnect B s.world).2.1 }
  | .Exec sql args =>
    { db := (s.db.Exec B s.world sql args).1, world := (s.db.Exec B s.world sql args).2.1 }
  | .Query sql args =>
    { db := (s.db.Query B s.world sql args).1, world := (s.db.Query B s.world sql args).2.1 }

/-- The state after a sequence of calls, each with the answers the library gave. -/
def run (s : State) : List (Backend × Call) → State
  | [] => s
  | (B, c) :: rest => run (step B s c) rest

/-- Every `Connect` of the sequence is issued while no connection is held. -/
def connectsWhenDisconnected (s : State) : List (Backend × Call) → Bool
  | [] => true
  | (B, c) :: rest =>
    (match c with
      | .Connect => !s.db.Connected
      | _ => true) && connectsWhenDisconnected (step B s c) rest

/-- A manager as the tests create it, before any call. -/
def fresh (driver dsn : String) : State :=
  { db := newDB driver dsn, world := World.init }

/-! ## Concrete backends and inputs -/

/-- Every library call succeeds; queries yield no rows. -/
def okBackend : Backend :=
  { sqlOpen := fun _ _ => none
    close := fun _ => none
    prepare := fun _ _ => none
    exec := fun _ _ => none
    query := fun _ _ => .ok [] }

/-- As `okBackend`, but `sql.Open` fails (the driver is not registered). -/
def openFailsBackend : Backend :=
  { okBackend with sqlOpen := fun _ _ => some "sql: unknown driver" }

/-- As `okBackend`, but closing a handle fails. -/
def closeFailsBackend : Backend :=
  { okBackend with close := fun _ => some "close failed" }

/-- As `okBackend`, but no statement can be prepared. -/
def prepareFailsBackend : Backend :=
  { okBackend with prepare := fun _ _ => some "no such table" }

/-- As `okBackend`, but every query yields the three rows given. -/
def threeRowsBackend : Backend :=
  { okBackend with query := fun _ _ => .ok [[.int 1], [.int 2], [.int 3]] }

/-- A result of `2 ^ 32 + 5` rows, each without columns. -/
def manyRows : List Row :=
  List.replicate (2 ^ 32 + 5) []

/-- As `okBackend`, but every query yields the rows of `manyRows`. -/
def manyRowsBackend : Backend :=
  { okBackend with query := fun _ _ => .ok manyRows }

/-- A connected manager with an empty cache: handle 0. -/
def connectedDB : DB :=
  { Driver := "sqlite3", DSN := ":memory:", connection := some 0, cache := some [] }

/-- The library record that belongs to `connectedDB`. -/
def connectedWorld : World :=
  { opened := 1, prepares := [], closes := [] }

/-- A connected manager whose cache holds one statement prepared on its handle. -/
def cachedDB : DB :=
  { Driver := "sqlite3", DSN := ":memory:", connection := some 0,
    cache := some [("SELECT 1", { id := 0, conn := 0, text := "SELECT 1" })] }

/-- The library record that belongs to `cachedDB`. -/
def cachedWorld : World :=
  { opened := 1, prepares := [(0, "SELECT 1")], closes := [] }

/-- Connect, run one statement, connect again without disconnecting. -/
def reconnectTrace : List (Backend × Call) :=
  [(okBackend, .Connect), (okBackend, .Exec "SELECT 1" []), (okBackend, .Connect)]

/-- Connect, run one statement, disconnect, connect, run it again. -/
def cycleTrace : List (Backend × Call) :=
  [(okBackend, .Connect), (okBackend, .Exec "SELECT 1" []), (okBackend, .Disconnect),
   (okBackend, .Connect), (okBackend, .Query "SELECT 1" [])]

/-! ## Schema registry and migrator -/

/-- Modelled from the spec: the database contents behind a connection, which
`schema.go` (not among the sources) reads and writes: the metadata record of
table `schema_info` (`none` while the table does not exist), the other tables,
and whether the database can be reached at all. -/
structure Store where
  schemaInfo : Option Nat
  tables : List String
  reachable : Bool
deriving DecidableEq, Repr

/-- Modelled from the spec: a migration step of `schema.go` (not among the
sources), a version with a procedure over the connection manager; the
procedure leaves a manager and database contents, and may fail. -/
structure Step where
  version : Nat
  procedure : DB → Store → DB × Store × Option Error

/-- Modelled from the spec: the registry of `schema.go` (not among the sources),
the steps in the order they were registered. -/
abbrev Schema := List Step

/-- Modelled from the spec: the target of `Migrate` in `schema.go` (not among
the sources), the `Latest` sentinel or a version. -/
inductive Target where
  | Latest
  | upTo (n : Nat)
deriving DecidableEq, Repr

/-- Modelled from the spec: `Version(n, procedure)` of `schema.go` (not among
the sources) registers a step. -/
def Schema.Version (s : Schema) (n : Nat) (procedure : DB → Store → DB × Store × Option Error) :
    Schema :=
  s ++ [{ version := n, procedure := procedure }]

/-- Modelled from the spec: `Current` of `schema.go` (not among the sources)
reads the metadata record, gives 0 when the table does not exist, and fails
when the connection is unusable. -/
def Schema.Current (db : DB) (st : Store) : Except Error Nat :=
  if db.Connected = true ∧ st.reachable = true then
    match st.schemaInfo with
    | none => .ok 0
    | some v => .ok v
  else .error "connection error"

/-- Modelled from the spec: the steps `Migrate` of `schema.go` (not among the
sources) selects, those above the current version and, unless the target is
`Latest`, not above the target, ascending by version. -/
def Schema.pending (s : Schema) (current : Nat) (target : Target) : List Step :=
  (s.filter (fun x =>
    decide (current < x.version) &&
      (match target with
        | .Latest => true
        | .upTo t => decide (x.version ≤ t)))).insertionSort
    (fun a b => a.version ≤ b.version)

/-- Modelled from the spec: the loop of `Migrate` in `schema.go` (not among the
sources): each procedure in order, the persisted version updated after each
success, stopping at the first failure with that error. -/
def Schema.applySteps : List Step → DB → Store → DB × Store × Option Error
  | [], db, st => (db, st, none)
  | x :: rest, db, st =>
    match x.procedure db st with
    | (db1, st1, some err) => (db1, st1, some err)
    | (db1, st1, none) =>
      Schema.applySteps rest db1 { st1 with schemaInfo := some x.version }

/-- Modelled from the spec: `Migrate` of `schema.go` (not among the sources):
read the current version, create the metadata table if it does not exist,
apply the pending steps. -/
def Schema.Migrate (s : Schema) (db : DB) (st : Store) (target : Target) :
    DB × Store × Option Error :=
  match Schema.Current db st with
  | .error err => (db, st, some err)
  | .ok current =>
    let st1 := match st.schemaInfo with
      | none => { st with schemaInfo := some 0 }
      | some _ => st
    Schema.applySteps (Schema.pending s current target) db st1

/-- The greatest version registered, 0 for an empty registry. -/
def Schema.greatest (s : Schema) : Nat :=
  (s.map (fun x => x.version)).foldr max 0

/-- A procedure that creates a table, as the step of the tests does with
`CREATE TABLE foo`. -/
def createTable (name : String) : DB → Store → DB × Store × Option Error :=
  fun db st =>
    if name ∈ st.tables then (db, st, some "table already exists")
    else (db, { st with tables := name :: st.tables }, none)

/-- The registry of the tests: one step at version 1 creating table `foo`. -/
def testSchema : Schema :=
  Schema.Version [] 1 (createTable "foo")

/-- A reachable database on which no migration has run. -/
def emptyStore : Store :=
  { schemaInfo := none, tables := [], reachable := true }

/-! ## Shared lemmas -/

theorem Cache.get_set_same (m : Cache) (k : String) (v : Stmt) :
    Cache.get (Cache.set m k v) k = some v := by
  simp [Cache.set, Cache.get]

theorem Cache.get_filter_ne (m : Cache) (k k1 : String) (h : k1 ≠ k) :
    Cache.get (m.filter (fun p => decide (p.1 ≠ k))) k1 = Cache.get m k1 := by
  induction m with
  | nil => rfl
  | cons p rest ih =>
    obtain ⟨a, b⟩ := p
    by_cases hak : a = k
    · have hne : ¬ a = k1 := fun h1 => h (h1.symm.trans hak)
      rw [List.filter_cons_of_neg (by simpa using hak)]
      simpa [Cache.get, hne] using ih
    · rw [List.filter_cons_of_pos (by simpa using hak)]
      by_cases hak1 : a = k1
      · simp [Cache.get, hak1]
      · simpa [Cache.get, hak1] using ih

theorem Cache.get_set_other (m : Cache) (k k1 : String) (v : Stmt) (h : k1 ≠ k) :
    Cache.get (Cache.set m k v) k1 = Cache.get m k1 := by
  have hne : ¬ k = k1 := fun h1 => h h1.symm
  simp only [Cache.set, Cache.get, hne, if_false]
  exact Cache.get_filter_ne m k k1 h

theorem Cache.get_nil_of_length (m : Cache) (h : m.length = 0) (k : String) :
    Cache.get m k = none := by
  cases m with
  | nil => rfl
  | cons p rest => simp at h

/-- What `statement` does, case by case. -/
theorem DB.statement_cases (B : Backend) (db : DB) (w : World) (sql : String) :
    (db.connection = none ∧
      db.statement B w sql = (db, w, .ret none (some "Not connected to database"))) ∨
    (∃ c s, db.connection = some c ∧ db.cacheGet sql = some s ∧
      db.statement B w sql = (db, w, .ret (some s) none)) ∨
    (∃ c e, db.connection = some c ∧ db.cacheGet sql = none ∧ B.prepare c sql = some e ∧
      db.statement B w sql =
        (db, { w with prepares := w.prepares ++ [(c, sql)] }, .ret none (some e))) ∨
    (∃ c, db.connection = some c ∧ db.cache = none ∧ B.prepare c sql = none ∧
      db.statement B w sql =
        (db, { w with prepares := w.prepares ++ [(c, sql)] },
          .panic "assignment to entry in nil map")) ∨
    (∃ c m, db.connection = some c ∧ db.cache = some m ∧ Cache.get m sql = none ∧
      B.prepare c sql = none ∧
      db.statement B w sql =
        ({ db with cache := some (m.set sql { id := w.prepares.length, conn := c, text := sql }) },
          { w with prepares := w.prepares ++ [(c, sql)] },
          .ret (some { id := w.prepares.length, conn := c, text := sql }) none)) := by
  cases hc : db.connection with
  | none => left; simp [DB.statement, hc]
  | some c =>
    right
    cases hg : db.cacheGet sql with
    | some s => left; exact ⟨c, s, rfl, rfl, by simp [DB.statement, hc, hg]⟩
    | none =>
      right
      cases hp : B.prepare c sql with
      | some e => left; exact ⟨c, e, rfl, rfl, hp, by simp [DB.statement, hc, hg, hp]⟩
      | none =>
        right
        cases hm : db.cache with
        | none => left; exact ⟨c, rfl, rfl, hp, by simp [DB.statement, hc, hg, hp, hm]⟩
        | some m =>
          right
          have hg1 : Cache.get m sql = none := by simpa [DB.cacheGet, hm] using hg
          refine ⟨c, m, rfl, rfl, hg1, hp, ?_⟩
          simp [DB.statement, hc, hp, hm, hg1, DB.cacheGet, Cache.get_set_same]

theorem DB.Exec_state (B : Backend) (db : DB) (w : World) (sql : String) (args : List Value) :
    (db.Exec B w sql args).1 = (db.statement B w sql).1 ∧
    (db.Exec B w sql args).2.1 = (db.statement B w sql).2.1 := by
  unfold DB.Exec
  split
  · simp_all
  · simp_all
  · simp_all
  · split <;> simp_all

theorem DB.Query_state (B : Backend) (db : DB) (w : World) (sql : String) (args : List Value) :
    (db.Query B w sql args).1 = (db.statement B w sql).1 ∧
    (db.Query B w sql args).2.1 = (db.statement B w sql).2.1 := by
  unfold DB.Query
  split
  · simp_all
  · simp_all
  · simp_all
  · split <;> simp_all

theorem DB.Count_state (bits : Nat) (B : Backend) (db : DB) (w : World) (sql : String)
    (args : List Value) :
    (db.Count bits B w sql args).1 = (db.Query B w sql args).1 ∧
    (db.Count bits B w sql args).2.1 = (db.Query B w sql args).2.1 := by
  unfold DB.Count
  split <;> simp_all

/-- The manager that `statement` leaves: same handle, and a cache that is the old
one, or the old one with one statement prepared on the held handle added. -/
theorem DB.statement_state (B : Backend) (db : DB) (w : World) (sql : String) :
    (db.statement B w sql).1 = db ∨
    ∃ c m, db.connection = some c ∧ db.cache = some m ∧
      (db.statement B w sql).1 =
        { db with cache := some (m.set sql { id := w.prepares.length, conn := c, text := sql }) } := by
  rcases DB.statement_cases B db w sql with h | h | h | h | h
  · left; rw [h.2]
  · obtain ⟨c, s, _, _, h⟩ := h; left; rw [h]
  · obtain ⟨c, e, _, _, _, h⟩ := h; left; rw [h]
  · obtain ⟨c, _, _, _, h⟩ := h; left; rw [h]
  · obtain ⟨c, m, hc, hm, _, _, h⟩ := h; right; exact ⟨c, m, hc, hm, by rw [h]⟩

theorem DB.statement_preserves_onlyIfConnected (B : Backend) (db : DB) (w : World)
    (sql : String) (h : db.CacheOnlyIfConnected) :
    (db.statement B w sql).1.CacheOnlyIfConnected := by
  rcases DB.statement_state B db w sql with h1 | ⟨c, m, hc, hm, h1⟩
  · rw [h1]; exact h
  · rw [h1]; intro hcon; simp [DB.Connected, hc] at hcon

theorem DB.statement_preserves_allocated (B : Backend) (db : DB) (w : World)
    (sql : String) (h : db.CacheAllocated) :
    (db.statement B w sql).1.CacheAllocated := by
  rcases DB.statement_state B db w sql with h1 | ⟨c, m, hc, hm, h1⟩
  · rw [h1]; exact h
  · rw [h1]; intro _; simp

theorem DB.statement_preserves_coherent (B : Backend) (db : DB) (w : World)
    (sql : String) (h : db.Coherent) :
    (db.statement B w sql).1.Coherent := by
  rcases DB.statement_state B db w sql with h1 | ⟨c, m, hc, hm, h1⟩
  · rw [h1]; exact h
  · rw [h1]
    intro k s hk
    by_cases hks : k = sql
    · subst hks
      simp [DB.cacheGet, Cache.get_set_same] at hk
      subst hk
      simpa using hc
    · have h2 : db.cacheGet k = some s := by
        simpa [DB.cacheGet, hm, Cache.get_set_other _ _ _ _ hks] using hk
      simpa using h k s h2

/-! ## Connect and Disconnect -/

theorem DB.Connect_fail (B : Backend) (db : DB) (w : World) (e : Error)
    (h : B.sqlOpen db.Driver db.DSN = some e) : db.Connect B w = (db, w, some e) := by
  simp [DB.Connect, h]

theorem DB.Connect_ok (B : Backend) (db : DB) (w : World)
    (h : B.sqlOpen db.Driver db.DSN = none) :
    db.Connect B w =
      ({ db with connection := some w.opened, cache := some (db.cache.getD []) },
        { w with opened := w.opened + 1 }, none) := by
  cases hm : db.cache <;> simp [DB.Connect, h, hm]

theorem DB.Connect_preserves_onlyIfConnected (B : Backend) (db : DB) (w : World)
    (h : db.CacheOnlyIfConnected) : (db.Connect B w).1.CacheOnlyIfConnected := by
  cases ho : B.sqlOpen db.Driver db.DSN with
  | some e => rw [DB.Connect_fail B db w e ho]; exact h
  | none => rw [DB.Connect_ok B db w ho]; intro hcon; simp [DB.Connected] at hcon

theorem DB.Connect_preserves_allocated (B : Backend) (db : DB) (w : World)
    (h : db.CacheAllocated) : (db.Connect B w).1.CacheAllocated := by
  cases ho : B.sqlOpen db.Driver db.DSN with
  | some e => rw [DB.Connect_fail B db w e ho]; exact h
  | none => rw [DB.Connect_ok B db w ho]; intro _; simp

theorem DB.Disconnect_cases (B : Backend) (db : DB) (w : World) :
    (db.connection = none ∧ db.Disconnect B w = (db, w, none)) ∨
    (∃ c e, db.connection = some c ∧ B.close c = some e ∧
      db.Disconnect B w = (db, { w with closes := w.closes ++ [c] }, some e)) ∨
    (∃ c, db.connection = some c ∧ B.close c = none ∧
      db.Disconnect B w =
        ({ db with connection := none, cache := some [] },
          { w with closes := w.closes ++ [c] }, none)) := by
  cases hc : db.connection with
  | none => left; simp [DB.Disconnect, hc]
  | some c =>
    right
    cases hx : B.close c with
    | some e => left; exact ⟨c, e, rfl, hx, by simp [DB.Disconnect, hc, hx]⟩
    | none => right; exact ⟨c, rfl, hx, by simp [DB.Disconnect, hc, hx]⟩

theorem DB.Disconnect_preserves_onlyIfConnected (B : Backend) (db : DB) (w : World)
    (h : db.CacheOnlyIfConnected) : (db.Disconnect B w).1.CacheOnlyIfConnected := by
  rcases DB.Disconnect_cases B db w with h1 | ⟨c, e, _, _, h1⟩ | ⟨c, _, _, h1⟩
  · rw [h1.2]; exact h
  · rw [h1]; exact h
  · rw [h1]; intro _; simp [DB.cacheLen]

theorem DB.Disconnect_preserves_allocated (B : Backend) (db : DB) (w : World)
    (h : db.CacheAllocated) : (db.Disconnect B w).1.CacheAllocated := by
  rcases DB.Disconnect_cases B db w with h1 | ⟨c, e, _, _, h1⟩ | ⟨c, _, _, h1⟩
  · rw [h1.2]; exact h
  · rw [h1]; exact h
  · rw [h1]; intro _; simp

/-! ## The claims -/

/-- C1: on a manager that holds no connection, `Exec` and `Query` return the
not-connected error for every query text and argument list, `Query` returns no
cursor, and nothing changes; a manager that was never connected holds no
connection, and neither does one left by a successful `Disconnect`. -/
theorem C1_exec_query_not_connected (B B0 : Backend) (db db0 : DB) (w w0 : World)
    (driver dsn sql : String) (args : List Value) (h : db.Connected = false) :
    db.Exec B w sql args = (db, w, .ret () (some "Not connected to database")) ∧
    db.Query B w sql args = (db, w, .ret none (some "Not connected to database")) ∧
    (newDB driver dsn).Connected = false ∧
    ((db0.Disconnect B0 w0).2.2 = none → (db0.Disconnect B0 w0).1.Connected = false) := by
  have hc : db.connection = none := by
    cases hx : db.connection with
    | none => rfl
    | some c => simp [DB.Connected, hx] at h
  refine ⟨by simp [DB.Exec, DB.statement, hc], by simp [DB.Query, DB.statement, hc], rfl, ?_⟩
  intro hd
  rcases DB.Disconnect_cases B0 db0 w0 with h1 | ⟨c, e, _, _, h1⟩ | ⟨c, _, _, h1⟩
  · rw [h1.2]; simp [DB.Connected, h1.1]
  · rw [h1] at hd; simp at hd
  · rw [h1]; rfl

theorem C1_exec_query_not_connected_witness :
    (newDB "sqlite3" ":memory:").Connected = false ∧
    (newDB "sqlite3" ":memory:").Exec okBackend World.init "SELECT 1" [.int 7] =
      (newDB "sqlite3" ":memory:", World.init, .ret () (some "Not connected to database")) ∧
    (newDB "sqlite3" ":memory:").Query okBackend World.init "SELECT 1" [.int 7] =
      (newDB "sqlite3" ":memory:", World.init, .ret none (some "Not connected to database")) :=
  ⟨rfl,
    (C1_exec_query_not_connected okBackend okBackend (newDB "sqlite3" ":memory:") connectedDB
      World.init connectedWorld "sqlite3" ":memory:" "SELECT 1" [.int 7] rfl).1,
    (C1_exec_query_not_connected okBackend okBackend (newDB "sqlite3" ":memory:") connectedDB
      World.init connectedWorld "sqlite3" ":memory:" "SELECT 1" [.int 7] rfl).2.1⟩

/-- C2, as stated, fails: a manager reached by `Connect` and one `Exec` holds one
cached statement; when closing the handle fails, `Disconnect` returns the error
and keeps handle and cache, and the `Connect` that follows keeps the entry. -/
theorem C2_counterexample :
    run (fresh "sqlite3" ":memory:") [(okBackend, .Connect), (okBackend, .Exec "SELECT 1" [])] =
      { db := cachedDB, world := cachedWorld } ∧
    (cachedDB.Disconnect closeFailsBackend cachedWorld).2.2 = some "close failed" ∧
    (((cachedDB.Disconnect closeFailsBackend cachedWorld).1.Connect okBackend
      (cachedDB.Disconnect closeFailsBackend cachedWorld).2.1).1.cacheLen = 1) := by
  refine ⟨?_, ?_, ?_⟩
  · simp [run, step, fresh, newDB, World.init, okBackend, DB.Connect, DB.Exec, DB.statement,
      DB.cacheGet, Cache.get, Cache.set, cachedDB, cachedWorld]
  · simp [DB.Disconnect, cachedDB, closeFailsBackend]
  · simp [DB.Disconnect, DB.Connect, DB.cacheLen, cachedDB, closeFailsBackend, okBackend]

/-- C2, amended: in every state in which the cache is non-empty only if a
connection is held, a `Disconnect` that succeeds holds no connection and no cache
entry afterwards; if a connection was held it called `Close` on it and replaced
the cache with an empty map, and if none was held it changed nothing; the
`Connect` that follows, succeeding or not, leaves a cache with no entries. -/
theorem C2_disconnect_connect_empty_cache (B1 B2 : Backend) (db : DB) (w : World) (c : Nat)
    (hinv : db.CacheOnlyIfConnected) (hok : (db.Disconnect B1 w).2.2 = none) :
    (db.Disconnect B1 w).1.connection = none ∧
    (db.Disconnect B1 w).1.cacheLen = 0 ∧
    (db.connection = some c →
      (db.Disconnect B1 w).1.cache = some [] ∧
      (db.Disconnect B1 w).2.1.closes = w.closes ++ [c]) ∧
    (db.connection = none → db.Disconnect B1 w = (db, w, none)) ∧
    ((db.Disconnect B1 w).1.Connect B2 (db.Disconnect B1 w).2.1).1.cacheLen = 0 := by
  have key : (db.Disconnect B1 w).1.connection = none ∧ (db.Disconnect B1 w).1.cacheLen = 0 ∧
      (db.connection = some c →
        (db.Disconnect B1 w).1.cache = some [] ∧
        (db.Disconnect B1 w).2.1.closes = w.closes ++ [c]) ∧
      (db.connection = none → db.Disconnect B1 w = (db, w, none)) := by
    rcases DB.Disconnect_cases B1 db w with h1 | ⟨c1, e, _, _, h1⟩ | ⟨c1, hc1, _, h1⟩
    · rw [h1.2]
      refine ⟨h1.1, hinv (by simp [DB.Connected, h1.1]), ?_, fun _ => rfl⟩
      intro hc; rw [h1.1] at hc; simp at hc
    · rw [h1] at hok; simp at hok
    · rw [h1]
      refine ⟨rfl, rfl, ?_, ?_⟩
      · intro hc; rw [hc1] at hc; simp at hc; subst hc; exact ⟨rfl, rfl⟩
      · intro hc; rw [hc1] at hc; simp at hc
  refine ⟨key.1, key.2.1, key.2.2.1, key.2.2.2, ?_⟩
  generalize db.Disconnect B1 w = r at key
  obtain ⟨d1, w1, e1⟩ := r
  simp only at key ⊢
  have hlen := key.2.1
  cases ho : B2.sqlOpen d1.Driver d1.DSN with
  | some e => rw [DB.Connect_fail B2 d1 w1 e ho]; exact hlen
  | none =>
    rw [DB.Connect_ok B2 d1 w1 ho]
    cases hm : d1.cache with
    | none => simp [DB.cacheLen]
    | some m => simpa [DB.cacheLen, hm] using hlen

theorem C2_disconnect_connect_empty_cache_witness :
    cachedDB.CacheOnlyIfConnected ∧
    (cachedDB.Disconnect okBackend cachedWorld).2.2 = none ∧
    (cachedDB.Disconnect okBackend cachedWorld).1.cache = some [] ∧
    ((cachedDB.Disconnect okBackend cachedWorld).1.Connect okBackend
      (cachedDB.Disconnect okBackend cachedWorld).2.1).1.cacheLen = 0 :=
  ⟨fun h => by simp [DB.Connected, cachedDB] at h, rfl,
    ((C2_disconnect_connect_empty_cache okBackend okBackend cachedDB cachedWorld 0
      (fun h => by simp [DB.Connected, cachedDB] at h) rfl).2.2.1 rfl).1,
    (C2_disconnect_connect_empty_cache okBackend okBackend cachedDB cachedWorld 0
      (fun h => by simp [DB.Connected, cachedDB] at h) rfl).2.2.2.2⟩

/-- C3, as stated, fails: on a manager that already holds a connection (reached
by one successful `Connect`), a `Connect` whose open call fails returns the error
and the connection is still held. -/
theorem C3_counterexample :
    run (fresh "sqlite3" ":memory:") [(okBackend, .Connect)] =
      { db := connectedDB, world := connectedWorld } ∧
    (connectedDB.Connect openFailsBackend connectedWorld).2.2 = some "sql: unknown driver" ∧
    (connectedDB.Connect openFailsBackend connectedWorld).1.Connected = true := by
  refine ⟨?_, ?_, ?_⟩
  · simp [run, step, fresh, newDB, World.init, okBackend, DB.Connect, connectedDB,
      connectedWorld]
  · simp [DB.Connect, openFailsBackend]
  · simp [DB.Connect, openFailsBackend, DB.Connected, connectedDB]

/-- C3, amended: when the open call fails, `Connect` returns that error and
leaves the manager and the library record as they were, so a connection is held
afterwards exactly when one was held before; in particular none is held when
none was held before. -/
theorem C3_connect_open_fails (B : Backend) (db : DB) (w : World) (e : Error)
    (h : B.sqlOpen db.Driver db.DSN = some e) :
    db.Connect B w = (db, w, some e) ∧
    (db.Connect B w).1.Connected = db.Connected ∧
    (db.Connected = false → (db.Connect B w).1.Connected = false) := by
  rw [DB.Connect_fail B db w e h]
  exact ⟨rfl, rfl, fun h1 => h1⟩

theorem C3_connect_open_fails_witness :
    openFailsBackend.sqlOpen (newDB "bogus" "x").Driver (newDB "bogus" "x").DSN =
      some "sql: unknown driver" ∧
    (newDB "bogus" "x").Connect openFailsBackend World.init =
      (newDB "bogus" "x", World.init, some "sql: unknown driver") ∧
    ((newDB "bogus" "x").Connect openFailsBackend World.init).1.Connected = false :=
  ⟨rfl, (C3_connect_open_fails openFailsBackend (newDB "bogus" "x") World.init
      "sql: unknown driver" rfl).1,
    (C3_connect_open_fails openFailsBackend (newDB "bogus" "x") World.init
      "sql: unknown driver" rfl).2.2 rfl⟩

/-- C5: the predicate `the cache is non-empty only if a connection is held` holds
for a fresh manager and for the manager `Copy` returns, and whenever it holds
before `Connect`, `Disconnect`, `Exec`, `Query` or `Count` it holds for the
manager the call leaves, however the call ends. -/
theorem C5_cache_only_if_connected (bits : Nat) (B : Backend) (db db0 : DB) (w : World)
    (driver dsn sql : String) (args : List Value) (h : db.CacheOnlyIfConnected) :
    (newDB driver dsn).CacheOnlyIfConnected ∧
    (db0.Copy).2.CacheOnlyIfConnected ∧
    (db.Copy).1.CacheOnlyIfConnected ∧
    (db.Connect B w).1.CacheOnlyIfConnected ∧
    (db.Disconnect B w).1.CacheOnlyIfConnected ∧
    (db.Exec B w sql args).1.CacheOnlyIfConnected ∧
    (db.Query B w sql args).1.CacheOnlyIfConnected ∧
    (db.Count bits B w sql args).1.CacheOnlyIfConnected := by
  refine ⟨fun _ => rfl, fun _ => rfl, h, DB.Connect_preserves_onlyIfConnected B db w h,
    DB.Disconnect_preserves_onlyIfConnected B db w h, ?_, ?_, ?_⟩
  · rw [(DB.Exec_state B db w sql args).1]
    exact DB.statement_preserves_onlyIfConnected B db w sql h
  · rw [(DB.Query_state B db w sql args).1]
    exact DB.statement_preserves_onlyIfConnected B db w sql h
  · rw [(DB.Count_state bits B db w sql args).1, (DB.Query_state B db w sql args).1]
    exact DB.statement_preserves_onlyIfConnected B db w sql h

theorem C5_cache_only_if_connected_witness :
    cachedDB.CacheOnlyIfConnected ∧
    (cachedDB.Disconnect okBackend cachedWorld).1.CacheOnlyIfConnected ∧
    (cachedDB.Exec prepareFailsBackend cachedWorld "SELECT 2" []).1.CacheOnlyIfConnected :=
  ⟨fun h => by simp [DB.Connected, cachedDB] at h,
    (C5_cache_only_if_connected 64 okBackend cachedDB cachedDB cachedWorld "sqlite3" ":memory:"
      "SELECT 2" [] (fun h => by simp [DB.Connected, cachedDB] at h)).2.2.2.2.1,
    (C5_cache_only_if_connected 64 prepareFailsBackend cachedDB cachedDB cachedWorld "sqlite3"
      ":memory:" "SELECT 2" [] (fun h => by simp [DB.Connected, cachedDB] at h)).2.2.2.2.2.1⟩

/-- C8: for every manager, `Copy` returns a manager with the same `Driver` and
`DSN` that holds no connection and no cache entry (its map is nil), and leaves
the receiver as it was. -/
theorem C8_copy (db : DB) (k : String) :
    (db.Copy).2.Driver = db.Driver ∧
    (db.Copy).2.DSN = db.DSN ∧
    (db.Copy).2.Connected = false ∧
    (db.Copy).2.cacheLen = 0 ∧
    (db.Copy).2.cacheGet k = none ∧
    (db.Copy).1 = db :=
  ⟨rfl, rfl, rfl, rfl, rfl, rfl⟩

/-! ## Reachable states -/

theorem DB.cacheGet_none_of_cacheLen (db : DB) (h : db.cacheLen = 0) (k : String) :
    db.cacheGet k = none := by
  cases hm : db.cache with
  | none => simp [DB.cacheGet, hm]
  | some m =>
    have hl : m.length = 0 := by simpa [DB.cacheLen, hm] using h
    simpa [DB.cacheGet, hm] using Cache.get_nil_of_length m hl k

/-- A statement that `statement` returns from a coherent cache was prepared on
the held connection. -/
theorem DB.statement_returns_current (B : Backend) (db : DB) (w : World) (sql : String)
    (q : Stmt) (hco : db.Coherent) (h : (db.statement B w sql).2.2 = .ret (some q) none) :
    db.connection = some q.conn := by
  rcases DB.statement_cases B db w sql with h1 | ⟨c, s, hc, hg, h1⟩ | ⟨c, e, _, _, _, h1⟩ |
    ⟨c, _, _, _, h1⟩ | ⟨c, m, hc, hm, _, _, h1⟩
  · rw [h1.2] at h; simp at h
  · rw [h1] at h; simp at h; subst h; exact hco sql s hg
  · rw [h1] at h; simp at h
  · rw [h1] at h; simp at h
  · rw [h1] at h; simp at h; subst h; simpa using hc

/-- The three predicates together are kept by every call whose `Connect`s are
issued while no connection is held. -/
theorem step_preserves (B : Backend) (s : State) (c : Call)
    (hd : (match c with
      | .Connect => !s.db.Connected
      | _ => true) = true)
    (h : s.db.Coherent ∧ s.db.CacheOnlyIfConnected ∧ s.db.CacheAllocated) :
    (step B s c).db.Coherent ∧ (step B s c).db.CacheOnlyIfConnected ∧
      (step B s c).db.CacheAllocated := by
  obtain ⟨hco, hon, hal⟩ := h
  cases c with
  | Connect =>
    refine ⟨?_, DB.Connect_preserves_onlyIfConnected B s.db s.world hon,
      DB.Connect_preserves_allocated B s.db s.world hal⟩
    have hdis : s.db.Connected = false := by simpa using hd
    show (s.db.Connect B s.world).1.Coherent
    cases ho : B.sqlOpen s.db.Driver s.db.DSN with
    | some e => rw [DB.Connect_fail B s.db s.world e ho]; exact hco
    | none =>
      rw [DB.Connect_ok B s.db s.world ho]
      intro k q hk
      have hnone := DB.cacheGet_none_of_cacheLen s.db (hon hdis) k
      cases hm : s.db.cache with
      | none => simp [DB.cacheGet, hm, Cache.get] at hk
      | some m =>
        have : s.db.cacheGet k = some q := by simpa [DB.cacheGet, hm] using hk
        rw [hnone] at this; simp at this
  | Disconnect =>
    refine ⟨?_, DB.Disconnect_preserves_onlyIfConnected B s.db s.world hon,
      DB.Disconnect_preserves_allocated B s.db s.world hal⟩
    show (s.db.Disconnect B s.world).1.Coherent
    rcases DB.Disconnect_cases B s.db s.world with h1 | ⟨c, e, _, _, h1⟩ | ⟨c, _, _, h1⟩
    · rw [h1.2]; exact hco
    · rw [h1]; exact hco
    · rw [h1]; intro k q hk; simp [DB.cacheGet, Cache.get] at hk
  | Exec sql args =>
    show (s.db.Exec B s.world sql args).1.Coherent ∧
      (s.db.Exec B s.world sql args).1.CacheOnlyIfConnected ∧
      (s.db.Exec B s.world sql args).1.CacheAllocated
    rw [(DB.Exec_state B s.db s.world sql args).1]
    exact ⟨DB.statement_preserves_coherent B s.db s.world sql hco,
      DB.statement_preserves_onlyIfConnected B s.db s.world sql hon,
      DB.statement_preserves_allocated B s.db s.world sql hal⟩
  | Query sql args =>
    show (s.db.Query B s.world sql args).1.Coherent ∧
      (s.db.Query B s.world sql args).1.CacheOnlyIfConnected ∧
      (s.db.Query B s.world sql args).1.CacheAllocated
    rw [(DB.Query_state B s.db s.world sql args).1]
    exact ⟨DB.statement_preserves_coherent B s.db s.world sql hco,
      DB.statement_preserves_onlyIfConnected B s.db s.world sql hon,
      DB.statement_preserves_allocated B s.db s.world sql hal⟩

theorem run_preserves (calls : List (Backend × Call)) (s : State)
    (hd : connectsWhenDisconnected s calls = true)
    (h : s.db.Coherent ∧ s.db.CacheOnlyIfConnected ∧ s.db.CacheAllocated) :
    (run s calls).db.Coherent ∧ (run s calls).db.CacheOnlyIfConnected ∧
      (run s calls).db.CacheAllocated := by
  induction calls generalizing s with
  | nil => exact h
  | cons bc rest ih =>
    obtain ⟨B, c⟩ := bc
    simp only [connectsWhenDisconnected, Bool.and_eq_true] at hd
    exact ih (step B s c) hd.2 (step_preserves B s c hd.1 h)

theorem fresh_invariants (driver dsn : String) :
    (fresh driver dsn).db.Coherent ∧ (fresh driver dsn).db.CacheOnlyIfConnected ∧
      (fresh driver dsn).db.CacheAllocated :=
  ⟨fun k q hk => by simp [fresh, newDB, DB.cacheGet] at hk, fun _ => rfl,
    fun hcon => by simp [fresh, newDB, DB.Connected] at hcon⟩

/-- In every state reached from a fresh manager, whatever the calls, a manager
that holds a connection has an allocated cache map. -/
theorem run_allocated (calls : List (Backend × Call)) (s : State) (h : s.db.CacheAllocated) :
    (run s calls).db.CacheAllocated := by
  induction calls generalizing s with
  | nil => exact h
  | cons bc rest ih =>
    obtain ⟨B, c⟩ := bc
    apply ih
    cases c with
    | Connect => exact DB.Connect_preserves_allocated B s.db s.world h
    | Disconnect => exact DB.Disconnect_preserves_allocated B s.db s.world h
    | Exec sql args =>
      show (s.db.Exec B s.world sql args).1.CacheAllocated
      rw [(DB.Exec_state B s.db s.world sql args).1]
      exact DB.statement_preserves_allocated B s.db s.world sql h
    | Query sql args =>
      show (s.db.Query B s.world sql args).1.CacheAllocated
      rw [(DB.Query_state B s.db s.world sql args).1]
      exact DB.statement_preserves_allocated B s.db s.world sql h

/-- C4, as stated, fails: after `Connect`, one `Exec` and a second `Connect`
without a `Disconnect` in between, the manager holds handle 1 while the cache
still holds the statement prepared on handle 0, and the statement lookup
returns it. -/
theorem C4_counterexample :
    (run (fresh "sqlite3" ":memory:") reconnectTrace).db.connection = some 1 ∧
    (run (fresh "sqlite3" ":memory:") reconnectTrace).db.cacheGet "SELECT 1" =
      some { id := 0, conn := 0, text := "SELECT 1" } ∧
    ((run (fresh "sqlite3" ":memory:") reconnectTrace).db.statement okBackend
      (run (fresh "sqlite3" ":memory:") reconnectTrace).world "SELECT 1").2.2 =
      .ret (some { id := 0, conn := 0, text := "SELECT 1" }) none ∧
    ¬ (run (fresh "sqlite3" ":memory:") reconnectTrace).db.Coherent := by
  have hrun : run (fresh "sqlite3" ":memory:") reconnectTrace =
      { db := { Driver := "sqlite3", DSN := ":memory:", connection := some 1,
                cache := some [("SELECT 1", { id := 0, conn := 0, text := "SELECT 1" })] },
        world := { opened := 2, prepares := [(0, "SELECT 1")], closes := [] } } := by
    simp [run, step, fresh, newDB, World.init, okBackend, DB.Connect, DB.Exec, DB.statement,
      DB.cacheGet, Cache.get, Cache.set, reconnectTrace]
  rw [hrun]
  refine ⟨rfl, by simp [DB.cacheGet, Cache.get], by simp [DB.statement, DB.cacheGet, Cache.get],
    ?_⟩
  intro hco
  have := hco "SELECT 1" { id := 0, conn := 0, text := "SELECT 1" }
    (by simp [DB.cacheGet, Cache.get])
  simp at this

/-- C4, amended: in every state reached from a fresh manager by a sequence of
`Connect`, `Disconnect`, `Exec` and `Query` calls in which every `Connect` is
issued while no connection is held, every statement in the cache was prepared on
the held connection, and a statement the lookup returns was prepared on it. -/
theorem C4_cache_coherent (driver dsn : String) (calls : List (Backend × Call)) (B : Backend)
    (sql : String) (q : Stmt)
    (h : connectsWhenDisconnected (fresh driver dsn) calls = true) :
    (run (fresh driver dsn) calls).db.Coherent ∧
    (((run (fresh driver dsn) calls).db.statement B (run (fresh driver dsn) calls).world sql).2.2 =
        .ret (some q) none →
      (run (fresh driver dsn) calls).db.connection = some q.conn) := by
  have hinv := run_preserves calls (fresh driver dsn) h (fresh_invariants driver dsn)
  exact ⟨hinv.1, fun hq => DB.statement_returns_current B _ _ sql q hinv.1 hq⟩

theorem C4_cache_coherent_witness :
    connectsWhenDisconnected (fresh "sqlite3" ":memory:") cycleTrace = true ∧
    (run (fresh "sqlite3" ":memory:") cycleTrace).db.Coherent ∧
    (run (fresh "sqlite3" ":memory:") cycleTrace).db.cacheGet "SELECT 1" =
      some { id := 1, conn := 1, text := "SELECT 1" } :=
  ⟨by simp [connectsWhenDisconnected, cycleTrace, step, fresh, newDB, World.init, okBackend,
      DB.Connect, DB.Disconnect, DB.Exec, DB.statement, DB.cacheGet, Cache.get, Cache.set,
      DB.Connected],
    (C4_cache_coherent "sqlite3" ":memory:" cycleTrace okBackend "SELECT 1"
      { id := 1, conn := 1, text := "SELECT 1" }
      (by simp [connectsWhenDisconnected, cycleTrace, step, fresh, newDB, World.init, okBackend,
        DB.Connect, DB.Disconnect, DB.Exec, DB.statement, DB.cacheGet, Cache.get, Cache.set,
        DB.Connected])).1,
    by simp [run, cycleTrace, step, fresh, newDB, World.init, okBackend,
      DB.Connect, DB.Disconnect, DB.Exec, DB.Query, DB.statement, DB.cacheGet, Cache.get,
      Cache.set]⟩

/-! ## Exec, Count and the statement lookup -/

theorem Count.loop_eq (bits : Nat) (rows : List Row) (n : Nat) (h : n < 2 ^ bits) :
    Count.loop bits rows n = (n + rows.length) % 2 ^ bits := by
  induction rows generalizing n with
  | nil => simp [Count.loop, Nat.mod_eq_of_lt h]
  | cons r rest ih =>
    have hpos : 0 < 2 ^ bits := Nat.pos_of_ne_zero (by positivity)
    rw [Count.loop, ih _ (Nat.mod_lt _ hpos), Nat.mod_add_mod, List.length_cons]
    congr 1
    omega

/-- C6: on a manager that holds connection `c` (its cache map `m` is then
allocated), `Exec` returns the error of `Prepare` when the text is not cached
and cannot be prepared; otherwise, with `s` the cached statement or the newly
prepared one, it returns the error of executing `s` if that fails and no error
if it succeeds; so it returns an error exactly in those two cases, and it
always returns. -/
theorem C6_exec_errors (B : Backend) (db : DB) (w : World) (sql : String) (args : List Value)
    (c : Nat) (m : Cache) (s : Stmt) (e : Error)
    (hc : db.connection = some c) (hm : db.cache = some m) :
    (Cache.get m sql = none → B.prepare c sql = some e →
      (db.Exec B w sql args).2.2 = .ret () (some e)) ∧
    ((Cache.get m sql = some s ∨
        (Cache.get m sql = none ∧ B.prepare c sql = none ∧
          s = { id := w.prepares.length, conn := c, text := sql })) →
      (B.exec s args = some e → (db.Exec B w sql args).2.2 = .ret () (some e)) ∧
      (B.exec s args = none → (db.Exec B w sql args).2.2 = .ret () none)) ∧
    ((∃ e1, (db.Exec B w sql args).2.2 = .ret () (some e1)) ↔
      ((Cache.get m sql = none ∧ B.prepare c sql ≠ none) ∨
        (∃ s1, (Cache.get m sql = some s1 ∨
            (Cache.get m sql = none ∧ B.prepare c sql = none ∧
              s1 = { id := w.prepares.length, conn := c, text := sql })) ∧
          B.exec s1 args ≠ none))) ∧
    ((db.Exec B w sql args).2.2 = .ret () none ∨
      ∃ e1, (db.Exec B w sql args).2.2 = .ret () (some e1)) := by
  have hget : db.cacheGet sql = Cache.get m sql := by simp [DB.cacheGet, hm]
  cases hg : Cache.get m sql with
  | some s0 =>
    have hst : db.statement B w sql = (db, w, .ret (some s0) none) := by
      simp [DB.statement, hc, hget, hg]
    cases hx : B.exec s0 args with
    | some e0 =>
      have hE : (db.Exec B w sql args).2.2 = .ret () (some e0) := by
        simp [DB.Exec, hst, hx]
      refine ⟨by simp, ?_, ?_, Or.inr ⟨e0, hE⟩⟩
      · rintro (h1 | h1)
        · simp at h1; subst h1
          exact ⟨fun h2 => by rw [hE, ← h2, hx], fun h2 => by rw [hx] at h2; simp at h2⟩
        · simp at h1
      · constructor
        · intro _; exact Or.inr ⟨s0, Or.inl rfl, by simp [hx]⟩
        · intro _; exact ⟨e0, hE⟩
    | none =>
      have hE : (db.Exec B w sql args).2.2 = .ret () none := by
        simp [DB.Exec, hst, hx]
      refine ⟨by simp, ?_, ?_, Or.inl hE⟩
      · rintro (h1 | h1)
        · simp at h1; subst h1
          exact ⟨fun h2 => by rw [hx] at h2; simp at h2, fun _ => hE⟩
        · simp at h1
      · constructor
        · rintro ⟨e1, h1⟩; rw [hE] at h1; simp at h1
        · rintro (h1 | ⟨s1, h1 | h1, h2⟩)
          · simp at h1
          · simp at h1; subst h1; exact absurd hx h2
          · simp at h1
  | none =>
    cases hp : B.prepare c sql with
    | some e0 =>
      have hst : db.statement B w sql =
          (db, { w with prepares := w.prepares ++ [(c, sql)] }, .ret none (some e0)) := by
        simp [DB.statement, hc, hget, hg, hp]
      have hE : (db.Exec B w sql args).2.2 = .ret () (some e0) := by
        simp [DB.Exec, hst]
      refine ⟨?_, ?_, ?_, Or.inr ⟨e0, hE⟩⟩
      · intro _ h2; simp at h2; subst h2; exact hE
      · rintro (h1 | h1)
        · simp at h1
        · simp at h1
      · constructor
        · intro _; exact Or.inl ⟨rfl, by simp⟩
        · intro _; exact ⟨e0, hE⟩
    | none =>
      have hst : db.statement B w sql =
          ({ db with
              cache := some (m.set sql { id := w.prepares.length, conn := c, text := sql }) },
            { w with prepares := w.prepares ++ [(c, sql)] },
            .ret (some { id := w.prepares.length, conn := c, text := sql }) none) := by
        simp [DB.statement, hc, hget, hg, hp, hm, DB.cacheGet, Cache.get_set_same]
      cases hx : B.exec { id := w.prepares.length, conn := c, text := sql } args with
      | some e0 =>
        have hE : (db.Exec B w sql args).2.2 = .ret () (some e0) := by
          simp [DB.Exec, hst, hx]
        refine ⟨by simp, ?_, ?_, Or.inr ⟨e0, hE⟩⟩
        · rintro (h1 | ⟨_, _, h1⟩)
          · simp at h1
          · subst h1
            exact ⟨fun h2 => by rw [hE, ← h2, hx], fun h2 => by rw [hx] at h2; simp at h2⟩
        · constructor
          · intro _; exact Or.inr ⟨_, Or.inr ⟨rfl, rfl, rfl⟩, by simp [hx]⟩
          · intro _; exact ⟨e0, hE⟩
      | none =>
        have hE : (db.Exec B w sql args).2.2 = .ret () none := by
          simp [DB.Exec, hst, hx]
        refine ⟨by simp, ?_, ?_, Or.inl hE⟩
        · rintro (h1 | ⟨_, _, h1⟩)
          · simp at h1
          · subst h1
            exact ⟨fun h2 => by rw [hx] at h2; simp at h2, fun _ => hE⟩
        · constructor
          · rintro ⟨e1, h1⟩; rw [hE] at h1; simp at h1
          · rintro (h1 | ⟨s1, h1 | ⟨_, _, h1⟩, h2⟩)
            · simp at h1
            · simp at h1
            · subst h1; exact absurd hx h2

theorem C6_exec_errors_witness :
    connectedDB.connection = some 0 ∧ connectedDB.cache = some [] ∧
    (connectedDB.Exec prepareFailsBackend connectedWorld "SELECT * FROM schema_info" []).2.2 =
      .ret () (some "no such table") :=
  ⟨rfl, rfl,
    (C6_exec_errors prepareFailsBackend connectedDB connectedWorld "SELECT * FROM schema_info" []
      0 [] { id := 0, conn := 0, text := "" } "no such table" rfl rfl).1 rfl rfl⟩

theorem manyRows_length : manyRows.length = 2 ^ 32 + 5 := by
  unfold manyRows
  exact List.length_replicate _ _

/-- C7, as stated, fails: where `uint` has 32 bits, on a cursor that yields
`2 ^ 32 + 5` rows the counter wraps around and `Count` returns 5 without an
error, not the number of rows. -/
theorem C7_counterexample :
    (connectedDB.Query manyRowsBackend connectedWorld "SELECT * FROM foo" []).2.2 =
      .ret (some { pending := manyRows, closed := false }) none ∧
    manyRows.length = 4294967301 ∧
    (connectedDB.Count 32 manyRowsBackend connectedWorld "SELECT * FROM foo" []).2.2.2 =
      .ret 5 none := by
  have hq : connectedDB.Query manyRowsBackend connectedWorld "SELECT * FROM foo" [] =
      ({ connectedDB with
          cache := some [("SELECT * FROM foo",
            { id := 0, conn := 0, text := "SELECT * FROM foo" })] },
        { connectedWorld with prepares := [(0, "SELECT * FROM foo")] },
        .ret (some { pending := manyRows, closed := false }) none) := by
    simp [DB.Query, DB.statement, DB.cacheGet, Cache.get, Cache.set, connectedDB,
      connectedWorld, manyRowsBackend, okBackend]
  have hloop : Count.loop 32 manyRows 0 = 5 := by
    rw [Count.loop_eq 32 manyRows 0 (by norm_num), manyRows_length]
    norm_num
  refine ⟨by rw [hq], by rw [manyRows_length]; norm_num, ?_⟩
  unfold DB.Count
  rw [hq]
  simp only [hloop]

/-- C7, amended: `Count` fails exactly when `Query` fails, with the same error
and count 0; when `Query` returns a cursor, `Count` returns the number of rows
the cursor yields modulo `2 ^ bits`, where `bits` is the width of `uint` (that
number itself when it is below `2 ^ bits`), and leaves the cursor at its end and
closed; the manager and the library record are those `Query` leaves. -/
theorem C7_count (bits : Nat) (B : Backend) (db : DB) (w : World) (sql : String)
    (args : List Value) (e : Error) (n : Nat) (r : Rows) :
    ((db.Query B w sql args).2.2 = .ret none (some e) →
      (db.Count bits B w sql args).2.2 = (none, .ret 0 (some e))) ∧
    ((db.Count bits B w sql args).2.2.2 = .ret n (some e) →
      n = 0 ∧ (db.Query B w sql args).2.2 = .ret none (some e)) ∧
    ((db.Query B w sql args).2.2 = .ret (some r) none →
      (db.Count bits B w sql args).2.2 =
        (some { pending := [], closed := true }, .ret (r.pending.length % 2 ^ bits) none) ∧
      (r.pending.length < 2 ^ bits →
        (db.Count bits B w sql args).2.2.2 = .ret r.pending.length none)) ∧
    (db.Count bits B w sql args).1 = (db.Query B w sql args).1 ∧
    (db.Count bits B w sql args).2.1 = (db.Query B w sql args).2.1 := by
  have hpos : 0 < 2 ^ bits := Nat.pos_of_ne_zero (by positivity)
  have hQ : ∀ v err, (db.Query B w sql args).2.2 = .ret v (some err) → v = none := by
    intro v err
    unfold DB.Query
    split
    · simp
    · simp; intro h1 _; exact h1.symm
    · simp
    · split <;> simp
      intro h1 _; exact h1.symm
  refine ⟨?_, ?_, ?_, (DB.Count_state bits B db w sql args).1,
    (DB.Count_state bits B db w sql args).2⟩
  · intro h
    unfold DB.Count
    split <;> simp_all
  · intro h
    revert h
    unfold DB.Count
    split
    · simp
    · rename_i db1 w1 v err hq
      simp
      intro h0 h1
      have hv := hQ v err (by rw [hq])
      subst hv
      exact ⟨h0.symm, by rw [hq, h1]⟩
    · simp
    · simp
  · intro h
    have hC : (db.Count bits B w sql args).2.2 =
        (some { pending := [], closed := true }, .ret (r.pending.length % 2 ^ bits) none) := by
      unfold DB.Count
      split <;> simp_all [Count.loop_eq bits r.pending 0 hpos]
    refine ⟨hC, fun hlt => ?_⟩
    rw [hC]
    simp [Nat.mod_eq_of_lt hlt]

theorem C7_count_witness :
    (connectedDB.Query threeRowsBackend connectedWorld "SELECT * FROM foo" []).2.2 =
      .ret (some { pending := [[.int 1], [.int 2], [.int 3]], closed := false }) none ∧
    (connectedDB.Count 64 threeRowsBackend connectedWorld "SELECT * FROM foo" []).2.2.2 =
      .ret 3 none :=
  ⟨by simp [DB.Query, DB.statement, DB.cacheGet, Cache.get, Cache.set, connectedDB,
      threeRowsBackend, okBackend],
    ((C7_count 64 threeRowsBackend connectedDB connectedWorld "SELECT * FROM foo" [] "" 0
      { pending := [[.int 1], [.int 2], [.int 3]], closed := false }).2.2.1
      (by simp [DB.Query, DB.statement, DB.cacheGet, Cache.get, Cache.set, connectedDB,
        threeRowsBackend, okBackend])).2 (by simp)⟩

/-- After a lookup that returned a statement, a lookup of the same text on the
manager it left returns that statement, prepares nothing and changes nothing;
the first lookup made at most one `Prepare` call. -/
theorem DB.statement_again (B B2 : Backend) (db : DB) (w : World) (sql : String) (q : Stmt)
    (h : (db.statement B w sql).2.2 = .ret (some q) none) :
    (db.statement B w sql).1.statement B2 (db.statement B w sql).2.1 sql =
      ((db.statement B w sql).1, (db.statement B w sql).2.1, .ret (some q) none) ∧
    (db.statement B w sql).2.1.prepares.length ≤ w.prepares.length + 1 := by
  rcases DB.statement_cases B db w sql with h1 | ⟨c, s, hc, hg, h1⟩ | ⟨c, e, _, _, _, h1⟩ |
    ⟨c, _, _, _, h1⟩ | ⟨c, m, hc, hm, _, _, h1⟩
  · rw [h1.2] at h; simp at h
  · rw [h1] at h ⊢
    simp at h; subst h
    exact ⟨by simp [DB.statement, hc, hg], by simp⟩
  · rw [h1] at h; simp at h
  · rw [h1] at h; simp at h
  · rw [h1] at h ⊢
    simp at h; subst h
    exact ⟨by simp [DB.statement, hc, DB.cacheGet, Cache.get_set_same], by simp⟩

theorem DB.Exec_ok_statement (B : Backend) (db : DB) (w : World) (sql : String)
    (args : List Value) (h : (db.Exec B w sql args).2.2 = .ret () none) :
    ∃ q, (db.statement B w sql).2.2 = .ret (some q) none := by
  revert h
  unfold DB.Exec
  split
  · simp
  · simp
  · simp
  · rename_i db1 w1 s hq
    intro _
    exact ⟨s, by rw [hq]⟩

theorem DB.Query_ok_statement (B : Backend) (db : DB) (w : World) (sql : String)
    (args : List Value) (r : Rows) (h : (db.Query B w sql args).2.2 = .ret (some r) none) :
    ∃ q, (db.statement B w sql).2.2 = .ret (some q) none := by
  revert h
  unfold DB.Query
  split
  · simp
  · simp
  · simp
  · rename_i db1 w1 s hq
    intro _
    exact ⟨s, by rw [hq]⟩

/-- After a lookup that returned a statement, `Exec` and `Query` of the same
text make no `Prepare` call. -/
theorem DB.no_prepare_again (B B2 : Backend) (db : DB) (w : World) (sql : String)
    (args2 : List Value) (q : Stmt) (h : (db.statement B w sql).2.2 = .ret (some q) none) :
    ((db.statement B w sql).1.Exec B2 (db.statement B w sql).2.1 sql args2).2.1.prepares =
      (db.statement B w sql).2.1.prepares ∧
    ((db.statement B w sql).1.Query B2 (db.statement B w sql).2.1 sql args2).2.1.prepares =
      (db.statement B w sql).2.1.prepares := by
  have h2 := (DB.statement_again B B2 db w sql q h).1
  constructor
  · rw [(DB.Exec_state B2 _ _ sql args2).2, h2]
  · rw [(DB.Query_state B2 _ _ sql args2).2, h2]

/-- C10: on a manager that holds connection `c` (its cache map `m` is then
allocated): if the text is not cached and can be prepared, the lookup makes
exactly one `Prepare` call, on `c` and with that text, stores the new statement
under the text, returns it, and leaves every other entry as it was; if the text
is cached, the lookup returns the cached statement and changes neither the
manager nor the record of library calls.  After a successful `Exec` or `Query`,
an `Exec` or `Query` of the same text makes no `Prepare` call, and the first
call made at most one. -/
theorem C10_statement_lookup (B B2 : Backend) (db : DB) (w : World) (sql k : String)
    (args args2 : List Value) (c : Nat) (m : Cache) (s : Stmt) (r : Rows)
    (hc : db.connection = some c) (hm : db.cache = some m) :
    (Cache.get m sql = none → B.prepare c sql = none →
      db.statement B w sql =
        ({ db with
            cache := some (m.set sql { id := w.prepares.length, conn := c, text := sql }) },
          { w with prepares := w.prepares ++ [(c, sql)] },
          .ret (some { id := w.prepares.length, conn := c, text := sql }) none) ∧
      (db.statement B w sql).1.cacheGet sql =
        some { id := w.prepares.length, conn := c, text := sql } ∧
      (k ≠ sql → (db.statement B w sql).1.cacheGet k = db.cacheGet k)) ∧
    (Cache.get m sql = some s → db.statement B w sql = (db, w, .ret (some s) none)) ∧
    ((db.Exec B w sql args).2.2 = .ret () none →
      ((db.Exec B w sql args).1.Exec B2 (db.Exec B w sql args).2.1 sql args2).2.1.prepares =
        (db.Exec B w sql args).2.1.prepares ∧
      ((db.Exec B w sql args).1.Query B2 (db.Exec B w sql args).2.1 sql args2).2.1.prepares =
        (db.Exec B w sql args).2.1.prepares ∧
      (db.Exec B w sql args).2.1.prepares.length ≤ w.prepares.length + 1) ∧
    ((db.Query B w sql args).2.2 = .ret (some r) none →
      ((db.Query B w sql args).1.Exec B2 (db.Query B w sql args).2.1 sql args2).2.1.prepares =
        (db.Query B w sql args).2.1.prepares ∧
      ((db.Query B w sql args).1.Query B2 (db.Query B w sql args).2.1 sql args2).2.1.prepares =
        (db.Query B w sql args).2.1.prepares ∧
      (db.Query B w sql args).2.1.prepares.length ≤ w.prepares.length + 1) := by
  have hget : db.cacheGet sql = Cache.get m sql := by simp [DB.cacheGet, hm]
  refine ⟨?_, ?_, ?_, ?_⟩
  · intro hg hp
    have hst : db.statement B w sql =
        ({ db with
            cache := some (m.set sql { id := w.prepares.length, conn := c, text := sql }) },
          { w with prepares := w.prepares ++ [(c, sql)] },
          .ret (some { id := w.prepares.length, conn := c, text := sql }) none) := by
      simp [DB.statement, hc, hget, hg, hp, hm, DB.cacheGet, Cache.get_set_same]
    refine ⟨hst, ?_, ?_⟩
    · rw [hst]; simp [DB.cacheGet, Cache.get_set_same]
    · intro hk; rw [hst]; simp [DB.cacheGet, hm, Cache.get_set_other _ _ _ _ hk]
  · intro hg
    simp [DB.statement, hc, hget, hg]
  · intro h
    obtain ⟨q, hq⟩ := DB.Exec_ok_statement B db w sql args h
    rw [(DB.Exec_state B db w sql args).1, (DB.Exec_state B db w sql args).2]
    exact ⟨(DB.no_prepare_again B B2 db w sql args2 q hq).1,
      (DB.no_prepare_again B B2 db w sql args2 q hq).2,
      (DB.statement_again B B2 db w sql q hq).2⟩
  · intro h
    obtain ⟨q, hq⟩ := DB.Query_ok_statement B db w sql args r h
    rw [(DB.Query_state B db w sql args).1, (DB.Query_state B db w sql args).2]
    exact ⟨(DB.no_prepare_again B B2 db w sql args2 q hq).1,
      (DB.no_prepare_again B B2 db w sql args2 q hq).2,
      (DB.statement_again B B2 db w sql q hq).2⟩

theorem C10_statement_lookup_witness :
    connectedDB.connection = some 0 ∧ connectedDB.cache = some [] ∧
    connectedDB.statement okBackend connectedWorld "SELECT 1" =
      (cachedDB, cachedWorld, .ret (some { id := 0, conn := 0, text := "SELECT 1" }) none) :=
  ⟨rfl, rfl,
    ((C10_statement_lookup okBackend okBackend connectedDB connectedWorld "SELECT 1" "SELECT 2"
      [] [] 0 [] { id := 0, conn := 0, text := "" } { pending := [], closed := false }
      rfl rfl).1 rfl rfl).1⟩

/-! ## Migration -/

theorem Schema.le_greatest (s : Schema) (x : Step) (h : x ∈ s) :
    x.version ≤ Schema.greatest s := by
  induction s with
  | nil => simp at h
  | cons y rest ih =>
    simp only [Schema.greatest, List.map_cons, List.foldr_cons]
    rcases List.mem_cons.mp h with h1 | h1
    · subst h1; exact Nat.le_max_left _ _
    · exact Nat.le_trans (ih h1) (Nat.le_max_right _ _)

theorem Schema.greatest_le (s : Schema) (b : Nat) (h : ∀ x ∈ s, x.version ≤ b) :
    Schema.greatest s ≤ b := by
  induction s with
  | nil => simp [Schema.greatest]
  | cons y rest ih =>
    simp only [Schema.greatest, List.map_cons, List.foldr_cons]
    exact Nat.max_le.mpr ⟨h y (List.mem_cons_self _ _),
      ih (fun x hx => h x (List.mem_cons_of_mem _ hx))⟩

/-- The pending steps for target `Latest` are the registered steps above the
current version, in ascending order of version. -/
theorem Schema.pending_latest (s : Schema) (current : Nat) :
    (∀ x, x ∈ Schema.pending s current .Latest ↔ x ∈ s ∧ current < x.version) ∧
    (Schema.pending s current .Latest).Pairwise (fun a b => a.version ≤ b.version) := by
  haveI : IsTotal Step (fun a b => a.version ≤ b.version) := ⟨fun a b => Nat.le_total _ _⟩
  haveI : IsTrans Step (fun a b => a.version ≤ b.version) :=
    ⟨fun _ _ _ h1 h2 => Nat.le_trans h1 h2⟩
  constructor
  · intro x
    simp [Schema.pending, List.mem_insertionSort, List.mem_filter]
  · exact List.sorted_insertionSort (fun (a b : Step) => a.version ≤ b.version) _

/-- A successful run of the loop records the version of the last step, and
keeps the record when there is no step. -/
theorem Schema.applySteps_record (l : List Step) (db db1 : DB) (st st1 : Store)
    (h : Schema.applySteps l db st = (db1, st1, none)) :
    st1.schemaInfo =
      (match l.getLast? with
        | some x => some x.version
        | none => st.schemaInfo) := by
  induction l generalizing db st with
  | nil => simp [Schema.applySteps] at h; rw [← h.2]; rfl
  | cons x rest ih =>
    rw [Schema.applySteps] at h
    split at h
    · simp at h
    · rename_i db2 st2 hp
      have h2 := ih db2 { st2 with schemaInfo := some x.version } h
      rw [h2]
      cases rest with
      | nil => rfl
      | cons y rest2 =>
        rw [List.getLast?_cons_cons]
        cases hq : (y :: rest2).getLast? with
        | none => simp at hq
        | some z => rfl

/-- In a list ascending by version no step is above the last one. -/
theorem Schema.last_is_greatest (l : List Step) (x : Step)
    (hs : l.Pairwise (fun a b => a.version ≤ b.version)) (hl : l.getLast? = some x) :
    x ∈ l ∧ ∀ y ∈ l, y.version ≤ x.version := by
  induction l with
  | nil => simp at hl
  | cons a rest ih =>
    cases rest with
    | nil =>
      simp at hl; subst hl
      exact ⟨List.mem_singleton.mpr rfl, fun y hy => by simp at hy; subst hy; exact Nat.le_refl _⟩
    | cons b rest2 =>
      rw [List.getLast?_cons_cons] at hl
      have hs2 := List.pairwise_cons.mp hs
      obtain ⟨hx, hall⟩ := ih hs2.2 hl
      refine ⟨List.mem_cons_of_mem _ hx, fun y hy => ?_⟩
      rcases List.mem_cons.mp hy with h1 | h1
      · subst h1; exact hs2.1 x hx
      · exact hall y h1

/-- A property of the database contents that some step of the list establishes,
or that holds at the start, and that the steps and the recording of the version
keep, holds after a successful run of the loop. -/
theorem Schema.applySteps_effect (Q : Store → Prop) (l : List Step) (db db1 : DB)
    (st st1 : Store)
    (hrec : ∀ v st0, Q st0 → Q { st0 with schemaInfo := some v })
    (hkeep : ∀ y ∈ l, ∀ d0 st0 d2 st2, y.procedure d0 st0 = (d2, st2, none) → Q st0 → Q st2)
    (hstart : Q st ∨ ∃ x ∈ l, ∀ d0 st0 d2 st2, x.procedure d0 st0 = (d2, st2, none) → Q st2)
    (h : Schema.applySteps l db st = (db1, st1, none)) : Q st1 := by
  induction l generalizing db st with
  | nil =>
    simp [Schema.applySteps] at h
    rcases hstart with h1 | ⟨x, hx, _⟩
    · rw [← h.2]; exact h1
    · simp at hx
  | cons a rest ih =>
    rw [Schema.applySteps] at h
    split at h
    · simp at h
    · rename_i db2 st2 hp
      apply ih db2 { st2 with schemaInfo := some a.version }
        (fun y hy => hkeep y (List.mem_cons_of_mem _ hy)) _ h
      rcases hstart with h1 | ⟨x, hx, hest⟩
      · exact Or.inl (hrec _ _ (hkeep a (List.mem_cons_self _ _) db st db2 st2 hp h1))
      · rcases List.mem_cons.mp hx with h2 | h2
        · subst h2; exact Or.inl (hrec _ _ (hest db st db2 st2 hp))
        · exact Or.inr ⟨x, h2, hest⟩

/-- C9: for every registry and every manager on a database on which no migration
has run, when `Migrate` with target `Latest` succeeds, the version recorded in
`schema_info` is the greatest registered version, `Current` reads that version
while the connection is usable, and every property of the database contents that
a step with a positive version establishes and that the steps and the recording
of the version keep (such as the existence of the table a step creates) holds. -/
theorem C9_migrate_latest (s : Schema) (db db1 : DB) (st st1 : Store) (x : Step)
    (Q : Store → Prop) (hnew : st.schemaInfo = none)
    (hok : Schema.Migrate s db st .Latest = (db1, st1, none)) :
    st1.schemaInfo = some (Schema.greatest s) ∧
    (db1.Connected = true → st1.reachable = true →
      Schema.Current db1 st1 = .ok (Schema.greatest s)) ∧
    (x ∈ s → 0 < x.version →
      (∀ v st0, Q st0 → Q { st0 with schemaInfo := some v }) →
      (∀ y ∈ s, ∀ d0 st0 d2 st2, y.procedure d0 st0 = (d2, st2, none) → Q st0 → Q st2) →
      (∀ d0 st0 d2 st2, x.procedure d0 st0 = (d2, st2, none) → Q st2) →
      Q st1) := by
  have hrun :
      Schema.applySteps (Schema.pending s 0 .Latest) db { st with schemaInfo := some 0 } =
        (db1, st1, none) := by
    unfold Schema.Migrate Schema.Current at hok
    by_cases hu : db.Connected = true ∧ st.reachable = true
    · simpa [hu, hnew] using hok
    · simp [hu] at hok
  obtain ⟨hmem, hsorted⟩ := Schema.pending_latest s 0
  have hrecord := Schema.applySteps_record _ db db1 _ st1 hrun
  have hver : st1.schemaInfo = some (Schema.greatest s) := by
    cases hl : (Schema.pending s 0 .Latest).getLast? with
    | none =>
      rw [hl] at hrecord
      have hnil : Schema.pending s 0 .Latest = [] := List.getLast?_eq_none_iff.mp hl
      have hz : Schema.greatest s = 0 := by
        apply Nat.le_zero.mp
        apply Schema.greatest_le
        intro y hy
        by_contra hne
        have : y ∈ Schema.pending s 0 .Latest := (hmem y).mpr ⟨hy, by omega⟩
        rw [hnil] at this
        simp at this
      rw [hrecord, hz]
    | some z =>
      rw [hl] at hrecord
      obtain ⟨hz, hall⟩ := Schema.last_is_greatest _ z hsorted hl
      have hzs : z ∈ s := ((hmem z).mp hz).1
      have hge : Schema.greatest s ≤ z.version := by
        apply Schema.greatest_le
        intro y hy
        by_cases hy0 : 0 < y.version
        · exact hall y ((hmem y).mpr ⟨hy, hy0⟩)
        · omega
      rw [hrecord]
      simp only [Option.some.injEq]
      exact Nat.le_antisymm (Schema.le_greatest s z hzs) hge
  refine ⟨hver, ?_, ?_⟩
  · intro hc hr
    simp [Schema.Current, hc, hr, hver]
  · intro hx hpos hrec hkeep hest
    exact Schema.applySteps_effect Q _ db db1 _ st1 hrec
      (fun y hy => hkeep y ((hmem y).mp hy).1)
      (Or.inr ⟨x, (hmem x).mpr ⟨hx, hpos⟩, hest⟩) hrun

theorem C9_migrate_latest_witness :
    emptyStore.schemaInfo = none ∧
    Schema.Migrate testSchema connectedDB emptyStore .Latest =
      (connectedDB, { schemaInfo := some 1, tables := ["foo"], reachable := true }, none) ∧
    Schema.greatest testSchema = 1 ∧
    ({ schemaInfo := some 1, tables := ["foo"], reachable := true } : Store).schemaInfo =
      some (Schema.greatest testSchema) :=
  ⟨rfl,
    by simp [Schema.Migrate, Schema.Current, Schema.pending, Schema.applySteps, testSchema,
      Schema.Version, createTable, connectedDB, emptyStore, DB.Connected],
    rfl,
    (C9_migrate_latest testSchema connectedDB connectedDB emptyStore
      { schemaInfo := some 1, tables := ["foo"], reachable := true }
      { version := 1, procedure := createTable "foo" } (fun st => "foo" ∈ st.tables) rfl
      (by simp [Schema.Migrate, Schema.Current, Schema.pending, Schema.applySteps, testSchema,
        Schema.Version, createTable, connectedDB, emptyStore, DB.Connected])).1⟩

end GoDB
